import Mathlib

/-
  Shallow embedding of blackjack/game/blackjackgame.py (class BlackJackGame).

  The collaborators Player / Dealer / Deck / the errors module are not part of
  the sources; they are modelled from the specification document:
  a Hand accumulates cards and exposes the best blackjack value with soft-ace
  adjustment, a busted flag (value > 21) and a natural-blackjack predicate
  (value 21 with exactly two cards); the Card Source supplies one card at a
  time together with its blackjack point value.

  Cards are represented by their point value (a natural number; an ace is the
  value 11, softened to 1 by the Hand when the total exceeds 21).
-/

/-- Modelled from the spec: the soft-ace adjustment performed by the external
Hand.  Starting from the raw sum (aces counted as 11), while the total exceeds
21 and an ace is still counted high, one ace is re-counted as 1 (minus 10). -/
def softAdjust : ℕ → ℕ → ℕ
  | s, 0 => s
  | s, a + 1 => if 21 < s then softAdjust (s - 10) a else s

/-- Modelled from the spec: the best blackjack value of a hand, with soft-ace
adjustment (external Hand collaborator, not in the sources). -/
def handValue (cards : List ℕ) : ℕ :=
  softAdjust cards.sum (cards.count 11)

/-- The hard value of a hand: every ace counted as 1.  Auxiliary quantity used
to reason about termination of the dealer loop. -/
def hardValue (cards : List ℕ) : ℕ :=
  cards.sum - 10 * cards.count 11

/-- Modelled from the spec: a Participant (Player / Dealer) is an identity plus
a Hand.  The Python Player carries user_id, first_name and join_id; the hand is
the list of accumulated card point values. -/
structure Participant where
  user_id : Int
  first_name : String
  join_id : Int
  cards : List ℕ
deriving DecidableEq, Repr

/-- Modelled from the spec: Hand.give_card appends one card to the hand. -/
def Participant.give_card (p : Participant) (c : ℕ) : Participant :=
  { p with cards := p.cards ++ [c] }

/-- Modelled from the spec: cardvalue is the hand's current best blackjack
value. -/
def Participant.cardvalue (p : Participant) : ℕ :=
  handValue p.cards

/-- Modelled from the spec: the busted flag is derived, value > 21. -/
def Participant.busted (p : Participant) : Bool :=
  decide (21 < p.cardvalue)

/-- Modelled from the spec: natural blackjack, value exactly 21 with exactly
two cards. -/
def Participant.has_blackjack (p : Participant) : Bool :=
  decide (p.cardvalue = 21) && decide (p.cards.length = 2)

/-- Modelled from the spec: the Card Source hands out one card at a time.  It
is embedded as an unbounded stream of point values together with a cursor; the
pos field records that every supplied card has a positive point value (all
blackjack point values lie in 1..11). -/
structure Deck where
  cards : ℕ → ℕ
  idx : ℕ
  pos : ∀ k, 1 ≤ cards k

/-- Modelled from the spec: Deck.pick_one_card returns the next card and
advances the source. -/
def Deck.pick_one_card (d : Deck) : ℕ × Deck :=
  (d.cards d.idx, { d with idx := d.idx + 1 })

/-- The typed failure signals of the engine.  The first six are the exception
classes imported by blackjackgame.py from blackjack.errors.
insufficientPermissions is the typed error class of the errors module that the
stop method intends to raise; blackjackgame.py does NOT import it, so the
raise statement on line 82 actually fails with a Python NameError, embedded
here as nameErrorUnresolved.  indexError models an out-of-range list
subscript. -/
inductive BJError where
  | playerBusted
  | gameAlreadyRunning
  | gameNotRunning
  | maxPlayersReached
  | playerAlreadyExisting
  | notEnoughPlayers
  | insufficientPermissions
  | nameErrorUnresolved
  | indexError
deriving DecidableEq, Repr

/-- BlackJackGame.MAX_PLAYERS. -/
def MAX_PLAYERS : ℕ := 5

/-- The state of a BlackJackGame.  current_player is the field
_current_player (an int: -1 is the dealer sentinel).  The handler registries
hold externally supplied callbacks, so only their invocations are recorded:
startHandlersRuns / stopHandlersRuns count the executions of
_run_handlers on the respective registry, and dealersTurnCalls counts the
invocations of dealers_turn.  The config fields (id, type, lang_id, logger) do
not influence any modelled behaviour and are omitted. -/
structure Game where
  current_player : Int
  players : List Participant
  running : Bool
  deck : Deck
  dealer : Participant
  startHandlersRuns : ℕ
  stopHandlersRuns : ℕ
  dealersTurnCalls : ℕ

/-- BlackJackGame.stop.  The Python guard is
"if user_id != -1 and user_id != self.players[0].user_id: raise
InsufficientPermissionsException" with short-circuit evaluation: for
user_id = -1 the subscript players[0] is never evaluated; otherwise an empty
roster raises IndexError, and an unauthorized caller hits the raise statement,
which fails with NameError because InsufficientPermissionsException is not
imported by this module.  On success: running := False and the stop handlers
run. -/
def stop (g : Game) (user_id : Int) : Game × Option BJError :=
  if user_id ≠ -1 then
    match g.players with
    | [] => (g, some .indexError)
    | p :: _ =>
      if user_id ≠ p.user_id then
        (g, some .nameErrorUnresolved)
      else
        ({ g with running := false, stopHandlersRuns := g.stopHandlersRuns + 1 }, none)
  else
    ({ g with running := false, stopHandlersRuns := g.stopHandlersRuns + 1 }, none)

/-- Python list subscript semantics: a negative index counts from the end of
the list; an index outside the resulting range raises IndexError. -/
def list_index {α : Type} (l : List α) (i : Int) : Except BJError α :=
  let j : Int := if i < 0 then i + l.length else i
  if 0 ≤ j ∧ j < (l.length : Int) then
    (l[j.toNat]?).elim (.error .indexError) .ok
  else
    .error .indexError

/-- BlackJackGame.get_current_player: self.players[self._current_player]. -/
def get_current_player (g : Game) : Except BJError Participant :=
  list_index g.players g.current_player

/-- BlackJackGame.add_player: reject if running, then if the roster is at
capacity, then if the user_id is already present; otherwise append a fresh
Player (empty hand) at the end of the roster. -/
def add_player (g : Game) (user_id : Int) (first_name : String) (message_id : Int) :
    Game × Option BJError :=
  if g.running then
    (g, some .gameAlreadyRunning)
  else if MAX_PLAYERS ≤ g.players.length then
    (g, some .maxPlayersReached)
  else if user_id ∈ g.players.map Participant.user_id then
    (g, some .playerAlreadyExisting)
  else
    ({ g with players := g.players ++
        [{ user_id := user_id, first_name := first_name, join_id := message_id, cards := [] }] },
     none)

/-- Each occurrence of an ace (11) in a hand contributes 11 to the sum. -/
theorem count_eleven_le_sum (l : List ℕ) : 11 * l.count 11 ≤ l.sum := by
  induction l with
  | nil => simp
  | cons c t ih =>
    by_cases hc : c = 11 <;>
      simp [List.count_cons, hc] <;> omega

/-- Appending one card increases the hard value by that card's hard
contribution (1 for an ace, the face value otherwise). -/
theorem hardValue_append_one (l : List ℕ) (c : ℕ) :
    hardValue (l ++ [c]) = hardValue l + (if c = 11 then 1 else c) := by
  have h := count_eleven_le_sum l
  by_cases hc : c = 11 <;>
    simp [hardValue, List.count_append, hc, List.count_singleton] <;> omega

/-- The soft-ace adjustment never drops below the hard value. -/
theorem softAdjust_ge (s a : ℕ) : s - 10 * a ≤ softAdjust s a := by
  induction a generalizing s with
  | zero => simp [softAdjust]
  | succ a ih =>
    simp only [softAdjust]
    split
    · have := ih (s - 10)
      omega
    · omega

/-- The hard value bounds the best blackjack value from below. -/
theorem hardValue_le_handValue (l : List ℕ) : hardValue l ≤ handValue l := by
  have := softAdjust_ge l.sum (l.count 11)
  simp only [hardValue, handValue]
  omega

/-- Appending a card of positive point value strictly increases the hard
value. -/
theorem hardValue_append_pos (l : List ℕ) (c : ℕ) (hc : 1 ≤ c) :
    hardValue l + 1 ≤ hardValue (l ++ [c]) := by
  have h := hardValue_append_one l c
  by_cases h11 : c = 11
  · subst h11
    simp at h
    omega
  · simp [h11] at h
    omega

/-- The while loop of BlackJackGame.dealers_turn: while the dealer's value is
at most 16, pick one card and give it to the dealer.  No bust check occurs
inside the loop.  Total because every supplied card has a positive point
value, so the hard value of the dealer's hand strictly increases with each
draw.  Returns the final dealer together with the final deck cursor. -/
def dealersLoop (cards : ℕ → ℕ) (pos : ∀ k, 1 ≤ cards k) (idx : ℕ)
    (d : Participant) : Participant × ℕ :=
  if h : d.cardvalue ≤ 16 then
    dealersLoop cards pos (idx + 1) (d.give_card (cards idx))
  else
    (d, idx)
termination_by 17 - hardValue d.cards
decreasing_by
  have h1 := hardValue_le_handValue d.cards
  have h2 := hardValue_append_pos d.cards (cards idx) (pos idx)
  simp only [Participant.cardvalue] at h
  simp only [Participant.give_card]
  omega

/-- BlackJackGame.dealers_turn: raise GameNotRunning unless running, then run
the draw loop on the dealer.  The dealersTurnCalls counter records the
invocation. -/
def dealers_turn (g : Game) : Game × Option BJError :=
  let g1 := { g with dealersTurnCalls := g.dealersTurnCalls + 1 }
  if ¬ g1.running then
    (g1, some .gameNotRunning)
  else
    let r := dealersLoop g1.deck.cards g1.deck.pos g1.deck.idx g1.dealer
    ({ g1 with dealer := r.1, deck := { g1.deck with idx := r.2 } }, none)

/-- BlackJackGame.next_player: raise GameNotRunning unless running; if the
cursor is not the dealer sentinel and has not reached the last roster index,
increment it; otherwise set the cursor to the sentinel -1 and call
dealers_turn. -/
def next_player (g : Game) : Game × Option BJError :=
  if ¬ g.running then
    (g, some .gameNotRunning)
  else if g.current_player ≠ -1 ∧ g.current_player < (g.players.length : Int) - 1 then
    ({ g with current_player := g.current_player + 1 }, none)
  else
    dealers_turn { g with current_player := -1 }

/-- Apply a function to the element at one position of a list (used to embed
the in-place mutation of a roster member). -/
def modifyAt {α : Type} (f : α → α) : ℕ → List α → List α
  | _, [] => []
  | 0, a :: as => f a :: as
  | n + 1, a :: as => a :: modifyAt f n as

/-- One step of the dealing loop of BlackJackGame.start: pick one card from
the deck and give it to the entity at position i of the roster-plus-dealer
sequence (position length(players) is the dealer). -/
def give_card_at (g : Game) (i : ℕ) : Game :=
  let card := g.deck.cards g.deck.idx
  let deck' : Deck := { g.deck with idx := g.deck.idx + 1 }
  if i = g.players.length then
    { g with dealer := g.dealer.give_card card, deck := deck' }
  else
    { g with players := modifyAt (fun p => p.give_card card) i g.players, deck := deck' }

/-- The positions visited by the dealing loop of BlackJackGame.start: the
Python loop iterates over (self.players + [self.dealer]) * 2, i.e. over the
roster-plus-dealer positions 0..n followed by 0..n again. -/
def deal_positions (n : ℕ) : List ℕ :=
  List.range (n + 1) ++ List.range (n + 1)

/-- BlackJackGame.start: raise GameAlreadyRunning if running and
NotEnoughPlayers on an empty roster; otherwise set running, give every player
and the dealer 2 cards by iterating the doubled roster-plus-dealer sequence,
and run the start handlers. -/
def start (g : Game) : Game × Option BJError :=
  if g.running then
    (g, some .gameAlreadyRunning)
  else if g.players.length < 1 then
    (g, some .notEnoughPlayers)
  else
    let g1 : Game := { g with running := true }
    let g2 := (deal_positions g1.players.length).foldl give_card_at g1
    ({ g2 with startHandlersRuns := g2.startHandlersRuns + 1 }, none)

/-- The result of BlackJackGame.evaluation: the three participant lists and,
since Player.pay is an externally effected operation on an external balance, the list of
(user_id, factor) payments issued, in program order. -/
structure EvalResult where
  won : List Participant
  tie : List Participant
  lost : List Participant
  payments : List (Int × ℚ)

/-- BlackJackGame._sort_list: stable sort by card value, descending. -/
def _sort_list (l : List Participant) : List Participant :=
  l.mergeSort (fun a b => decide (b.cardvalue ≤ a.cardvalue))

/-- BlackJackGame.evaluation: split the roster into busted players (busted
flag) and not-busted players (value at most 21); branch on the dealer: busted
dealer pays every not-busted player (2.5 with a natural blackjack, else 2)
into the won list; a dealer natural blackjack ties the not-busted players
that also hold one (paying 1) and defeats the rest; otherwise, with dealer
value at most 21, each not-busted player wins with factor 2 above the dealer,
ties with factor 1 at the dealer's value, and loses below it.  The busted
players are appended to the lost list and each list is sorted by value,
descending. -/
def evaluation (g : Game) : EvalResult :=
  let list_busted := g.players.filter (fun p => p.busted)
  let list_not_busted := g.players.filter (fun p => decide (p.cardvalue ≤ 21))
  let res : EvalResult :=
    if g.dealer.busted then
      { won := list_not_busted, tie := [], lost := [],
        payments := list_not_busted.map
          (fun p => (p.user_id, if p.has_blackjack then (5 / 2 : ℚ) else 2)) }
    else if g.dealer.has_blackjack then
      { won := [],
        tie := list_not_busted.filter (fun p => p.has_blackjack),
        lost := list_not_busted.filter (fun p => !p.has_blackjack),
        payments := (list_not_busted.filter (fun p => p.has_blackjack)).map
          (fun p => (p.user_id, (1 : ℚ))) }
    else if g.dealer.cardvalue ≤ 21 then
      { won := list_not_busted.filter (fun p => decide (g.dealer.cardvalue < p.cardvalue)),
        tie := list_not_busted.filter (fun p => decide (p.cardvalue = g.dealer.cardvalue)),
        lost := list_not_busted.filter (fun p => decide (p.cardvalue < g.dealer.cardvalue)),
        payments := list_not_busted.filterMap (fun p =>
          if g.dealer.cardvalue < p.cardvalue then some (p.user_id, (2 : ℚ))
          else if p.cardvalue = g.dealer.cardvalue then some (p.user_id, (1 : ℚ))
          else none) }
    else
      { won := [], tie := [], lost := [], payments := [] }
  { won := _sort_list res.won,
    tie := _sort_list res.tie,
    lost := _sort_list (res.lost ++ list_busted),
    payments := res.payments }

/-- Concrete deck: a constant stream of twos. -/
def deckTwos : Deck :=
  { cards := fun _ => 2, idx := 0, pos := fun _ => Nat.le_of_lt Nat.one_lt_two }

/-- Concrete roster member used for the stop claims. -/
def pOwner : Participant :=
  { user_id := 1, first_name := "a", join_id := 0, cards := [10, 9] }

/-- Concrete dealer hand used in several concrete games. -/
def dHigh : Participant :=
  { user_id := 0, first_name := "Dealer", join_id := 0, cards := [10, 8] }

/-- Concrete game for the stop permission claims: one player with user_id 1. -/
def gStop : Game :=
  { current_player := 0, players := [pOwner], running := true, deck := deckTwos,
    dealer := dHigh, startHandlersRuns := 0, stopHandlersRuns := 0, dealersTurnCalls := 0 }

/-- C5: an unauthorized stop call does not fail with the typed
InsufficientPermissions error: because blackjackgame.py never imports
InsufficientPermissionsException, the raise statement itself fails with a
Python NameError.  Evaluated on a game whose only player has user_id 1 and a
requester id 999. -/
theorem stop_unauthorized_is_nameError :
    stop gStop 999 = (gStop, some BJError.nameErrorUnresolved) ∧
      BJError.nameErrorUnresolved ≠ BJError.insufficientPermissions :=
  ⟨rfl, by decide⟩

/-- C10: stop never inspects the running flag: whatever its value, an
authorized request (the sentinel -1 or the first player's id) succeeds, sets
running to false and runs the stop handlers; no GameNotRunning error is ever
raised. -/
theorem stop_ignores_running (g : Game) (user_id : Int)
    (hauth : user_id = -1 ∨ ∃ p rest, g.players = p :: rest ∧ user_id = p.user_id) :
    stop g user_id =
      ({ g with running := false, stopHandlersRuns := g.stopHandlersRuns + 1 }, none) := by
  rcases hauth with h | ⟨p, rest, hps, hup⟩
  · simp [stop, h]
  · subst hup
    by_cases h1 : p.user_id = -1 <;> simp [stop, hps, h1]

/-- Concrete idle game for the C10 witness: running is already false and the
caller is the first player. -/
def gIdle : Game :=
  { current_player := 0, players := [pOwner], running := false, deck := deckTwos,
    dealer := dHigh, startHandlersRuns := 0, stopHandlersRuns := 0, dealersTurnCalls := 0 }

/-- Witness for C10: stopping an already idle game with the owner id 1
silently succeeds and runs the stop handlers. -/
theorem stop_ignores_running_witness :
    stop gIdle 1 =
      ({ gIdle with running := false, stopHandlersRuns := gIdle.stopHandlersRuns + 1 }, none) :=
  stop_ignores_running gIdle 1 (Or.inr ⟨pOwner, [], rfl, rfl⟩)

/-- C7: add_player checks its failure conditions in fixed precedence
(GameAlreadyRunning, then MaxPlayersReached at capacity 5, then
PlayerAlreadyExists), every failure leaves the whole game state unchanged,
and success appends exactly one fresh participant at the end of the roster. -/
theorem add_player_spec (g : Game) (uid : Int) (fname : String) (mid : Int) :
    (g.running = true → add_player g uid fname mid = (g, some .gameAlreadyRunning)) ∧
    (g.running = false → MAX_PLAYERS ≤ g.players.length →
      add_player g uid fname mid = (g, some .maxPlayersReached)) ∧
    (g.running = false → g.players.length < MAX_PLAYERS →
      uid ∈ g.players.map Participant.user_id →
      add_player g uid fname mid = (g, some .playerAlreadyExisting)) ∧
    (g.running = false → g.players.length < MAX_PLAYERS →
      uid ∉ g.players.map Participant.user_id →
      add_player g uid fname mid =
        ({ g with players := g.players ++
            [{ user_id := uid, first_name := fname, join_id := mid, cards := [] }] }, none)) := by
  refine ⟨?_, ?_, ?_, ?_⟩
  · intro h1
    simp [add_player, h1]
  · intro h1 h2
    simp [add_player, h1, h2]
  · intro h1 h2 h3
    simp [add_player, h1, h3, Nat.not_le.mpr h2]
  · intro h1 h2 h3
    simp [add_player, h1, h3, Nat.not_le.mpr h2]

/-- Concrete two-seat game for the C7 witness. -/
def gJoin : Game :=
  { current_player := 0, players := [pOwner], running := false, deck := deckTwos,
    dealer := dHigh, startHandlersRuns := 0, stopHandlersRuns := 0, dealersTurnCalls := 0 }

/-- Witness for C7: adding a fresh id 2 to an idle one-player game appends
exactly one participant at the end. -/
theorem add_player_spec_witness :
    add_player gJoin 2 "b" 5 =
      ({ gJoin with players := gJoin.players ++
          [{ user_id := 2, first_name := "b", join_id := 5, cards := [] }] }, none) :=
  (add_player_spec gJoin 2 "b" 5).2.2.2 rfl (by decide) (by decide)

/-- Concrete game at the dealer sentinel: two players, cursor -1. -/
def gSentinel : Game :=
  { current_player := -1, players := [pOwner, dHigh], running := true, deck := deckTwos,
    dealer := dHigh, startHandlersRuns := 0, stopHandlersRuns := 0, dealersTurnCalls := 0 }

/-- Counterexample to C6: with the cursor at the dealer sentinel -1 and a
non-empty roster, get_current_player raises nothing and returns the LAST
roster participant (Python negative indexing), contradicting the claim that
the sentinel yields an error and no roster participant. -/
theorem get_current_player_sentinel_counterexample :
    get_current_player gSentinel = Except.ok dHigh ∧ dHigh ∈ gSentinel.players := by
  constructor
  · rfl
  · simp [gSentinel]

/-- C6 amended: get_current_player returns the participant at the cursor for
a valid non-negative index; at the dealer sentinel -1 with a non-empty roster
it returns the last roster participant (Python negative indexing); it raises
IndexError exactly when the cursor is at least the roster length or below
minus the roster length (in particular whenever the roster is empty). -/
theorem get_current_player_py_semantics (g : Game) :
    (∀ j : ℕ, g.current_player = (j : Int) → ∀ p, g.players[j]? = some p →
      get_current_player g = Except.ok p) ∧
    (g.current_player = -1 → ∀ q, g.players.getLast? = some q →
      get_current_player g = Except.ok q) ∧
    (get_current_player g = Except.error BJError.indexError ↔
      ((g.players.length : Int) ≤ g.current_player ∨
        g.current_player < -(g.players.length : Int))) := by
  refine ⟨?_, ?_, ?_⟩
  · intro j hj p hp
    have hjlt : j < g.players.length := (List.getElem?_eq_some_iff.mp hp).1
    simp only [get_current_player, list_index, hj]
    rw [if_neg (by omega : ¬ ((j : Int) < 0)),
      if_pos (by constructor <;> omega : (0 : Int) ≤ (j : Int) ∧
        (j : Int) < (g.players.length : Int))]
    simp only [Int.toNat_natCast]
    rw [hp]
    rfl
  · intro hcur q hq
    have hne : g.players ≠ [] := by
      intro hnil
      rw [hnil] at hq
      exact Option.noConfusion hq
    have hlen : 1 ≤ g.players.length := List.length_pos.mpr hne
    simp only [get_current_player, list_index, hcur]
    rw [if_pos (by omega : (-1 : Int) < 0),
      if_pos (by constructor <;> omega : (0 : Int) ≤ -1 + (g.players.length : Int) ∧
        -1 + (g.players.length : Int) < (g.players.length : Int))]
    have htn : ((-1 : Int) + (g.players.length : Int)).toNat = g.players.length - 1 := by
      omega
    rw [htn]
    rw [List.getLast?_eq_getElem?] at hq
    rw [hq]
    rfl
  · simp only [get_current_player, list_index]
    by_cases hneg : g.current_player < 0
    · rw [if_pos hneg]
      by_cases hin : (0 : Int) ≤ g.current_player + (g.players.length : Int) ∧
          g.current_player + (g.players.length : Int) < (g.players.length : Int)
      · rw [if_pos hin]
        rw [List.getElem?_eq_getElem (by omega :
          (g.current_player + (g.players.length : Int)).toNat < g.players.length)]
        simp only [Option.elim_some]
        constructor
        · intro hcontra
          exact Except.noConfusion hcontra
        · intro hr
          exfalso
          omega
      · rw [if_neg hin]
        constructor
        · intro _
          omega
        · intro _
          rfl
    · rw [if_neg hneg]
      by_cases hin : (0 : Int) ≤ g.current_player ∧
          g.current_player < (g.players.length : Int)
      · rw [if_pos hin]
        rw [List.getElem?_eq_getElem (by omega : g.current_player.toNat < g.players.length)]
        simp only [Option.elim_some]
        constructor
        · intro hcontra
          exact Except.noConfusion hcontra
        · intro hr
          exfalso
          omega
      · rw [if_neg hin]
        constructor
        · intro _
          omega
        · intro _
          rfl

/-- Concrete game with the cursor on the first of two players. -/
def gCursorZero : Game :=
  { current_player := 0, players := [pOwner, dHigh], running := true, deck := deckTwos,
    dealer := dHigh, startHandlersRuns := 0, stopHandlersRuns := 0, dealersTurnCalls := 0 }

/-- Witness for the amended C6: at cursor 0 the first roster member is
returned. -/
theorem get_current_player_py_semantics_witness :
    get_current_player gCursorZero = Except.ok pOwner :=
  (get_current_player_py_semantics gCursorZero).1 0 rfl pOwner rfl

/-- dealers_turn changes only the dealer, the deck cursor and the invocation
counter: cursor, roster, running flag and handler counters are untouched, and
the counter records exactly one invocation. -/
theorem dealers_turn_frame (g : Game) :
    (dealers_turn g).1.current_player = g.current_player ∧
    (dealers_turn g).1.players = g.players ∧
    (dealers_turn g).1.running = g.running ∧
    (dealers_turn g).1.dealersTurnCalls = g.dealersTurnCalls + 1 := by
  by_cases hr : g.running <;> simp [dealers_turn, hr]

/-- Iterated next_player, discarding the error component (on a running game
none of the modelled calls raises). -/
def nextIter (g : Game) : ℕ → Game
  | 0 => g
  | n + 1 => nextIter (next_player g).1 n

/-- On a running game whose cursor sits on roster index j with
j + k + 1 = roster size, k + 1 calls to next_player land the cursor on the
dealer sentinel and invoke dealers_turn exactly once. -/
theorem nextIter_progress (k : ℕ) :
    ∀ (g : Game) (j : ℕ), g.running = true → g.current_player = (j : Int) →
      j + k + 1 = g.players.length →
      (nextIter g (k + 1)).current_player = -1 ∧
      (nextIter g (k + 1)).dealersTurnCalls = g.dealersTurnCalls + 1 := by
  induction k with
  | zero =>
    intro g j hrun hcur hlen
    have hcond : ¬ (g.current_player ≠ -1 ∧
        g.current_player < (g.players.length : Int) - 1) := by
      rw [hcur]
      omega
    show (nextIter (next_player g).1 0).current_player = -1 ∧
      (nextIter (next_player g).1 0).dealersTurnCalls = g.dealersTurnCalls + 1
    simp only [nextIter]
    rw [next_player, if_neg (by simp [hrun]), if_neg hcond]
    have hframe := dealers_turn_frame { g with current_player := -1 }
    exact ⟨hframe.1, hframe.2.2.2⟩
  | succ k ih =>
    intro g j hrun hcur hlen
    have hstep : next_player g = ({ g with current_player := g.current_player + 1 }, none) := by
      rw [next_player, if_neg (by simp [hrun]), if_pos]
      constructor
      · rw [hcur]
        omega
      · rw [hcur]
        omega
    show (nextIter (next_player g).1 (k + 1)).current_player = -1 ∧
      (nextIter (next_player g).1 (k + 1)).dealersTurnCalls = g.dealersTurnCalls + 1
    rw [hstep]
    exact ih { g with current_player := g.current_player + 1 } (j + 1) hrun
      (by rw [hcur]; push_cast; ring) (by simpa using by omega)

/-- C8: on a running game with the cursor at roster index 0, exactly
roster-size many next_player calls land the cursor on the dealer sentinel -1
and invoke dealers_turn exactly once; and from the sentinel no next_player
call ever moves the cursor back to a player index. -/
theorem next_player_dealer_transition (g : Game) (hrun : g.running = true)
    (hcur : g.current_player = 0) (hne : 1 ≤ g.players.length) :
    (nextIter g g.players.length).current_player = -1 ∧
    (nextIter g g.players.length).dealersTurnCalls = g.dealersTurnCalls + 1 ∧
    ∀ h : Game, h.current_player = -1 → ((next_player h).1).current_player = -1 := by
  have hmain := nextIter_progress (g.players.length - 1) g 0 hrun (by exact_mod_cast hcur)
    (by omega)
  rw [(by omega : g.players.length - 1 + 1 = g.players.length)] at hmain
  refine ⟨hmain.1, hmain.2, ?_⟩
  intro h hcur'
  by_cases hr : h.running
  · rw [next_player, if_neg (by simp [hr]), if_neg (by rw [hcur']; omega)]
    exact (dealers_turn_frame { h with current_player := -1 }).1
  · rw [next_player, if_pos (by simp [hr])]
    exact hcur'

/-- Concrete running two-player game with the cursor on index 0. -/
def gTurns : Game :=
  { current_player := 0, players := [pOwner, dHigh], running := true, deck := deckTwos,
    dealer := dHigh, startHandlersRuns := 0, stopHandlersRuns := 0, dealersTurnCalls := 0 }

/-- Witness for C8: two next_player calls on the two-player game land on the
dealer sentinel with exactly one dealers_turn invocation. -/
theorem next_player_dealer_transition_witness :
    (nextIter gTurns 2).current_player = -1 ∧ (nextIter gTurns 2).dealersTurnCalls = 1 := by
  have h := next_player_dealer_transition gTurns rfl rfl (by decide)
  exact ⟨h.1, h.2.1⟩

/-- The dealer draw loop always ends with a value above 16. -/
theorem dealersLoop_gt16 (cards : ℕ → ℕ) (pos : ∀ k, 1 ≤ cards k) :
    ∀ (n idx : ℕ) (d : Participant), 17 - hardValue d.cards ≤ n →
      16 < (dealersLoop cards pos idx d).1.cardvalue := by
  intro n
  induction n with
  | zero =>
    intro idx d hn
    have hhard := hardValue_le_handValue d.cards
    rw [dealersLoop, dif_neg (by simp only [Participant.cardvalue]; omega)]
    show 16 < d.cardvalue
    simp only [Participant.cardvalue]
    omega
  | succ n ih =>
    intro idx d hn
    rw [dealersLoop]
    by_cases hle : d.cardvalue ≤ 16
    · rw [dif_pos hle]
      apply ih
      have h1 := hardValue_le_handValue d.cards
      have h2 := hardValue_append_pos d.cards (cards idx) (pos idx)
      simp only [Participant.cardvalue] at hle
      simp only [Participant.give_card]
      omega
    · rw [dif_neg hle]
      show 16 < d.cardvalue
      omega

/-- C9: on a running game, dealers_turn terminates without error and the
dealer finishes with value strictly above 16; when the dealer already stands
above 16 it draws nothing at all.  The loop is total because every card has a
positive point value (termination of dealersLoop). -/
theorem dealers_turn_stands_over_16 (g : Game) (hrun : g.running = true) :
    (dealers_turn g).2 = none ∧
    16 < (dealers_turn g).1.dealer.cardvalue ∧
    (16 < g.dealer.cardvalue → (dealers_turn g).1.dealer = g.dealer) := by
  refine ⟨?_, ?_, ?_⟩
  · simp [dealers_turn, hrun]
  · simp only [dealers_turn]
    rw [if_neg (by simp [hrun])]
    exact dealersLoop_gt16 g.deck.cards g.deck.pos _ g.deck.idx g.dealer (Nat.le_refl _)
  · intro hgt
    simp only [dealers_turn]
    rw [if_neg (by simp [hrun])]
    show (dealersLoop g.deck.cards g.deck.pos g.deck.idx g.dealer).1 = g.dealer
    rw [dealersLoop, dif_neg (by omega)]

/-- Concrete running game whose dealer holds 15. -/
def gDealerLow : Game :=
  { current_player := -1, players := [pOwner],  running := true, deck := deckTwos,
    dealer := { user_id := 0, first_name := "Dealer", join_id := 0, cards := [10, 5] },
    startHandlersRuns := 0, stopHandlersRuns := 0, dealersTurnCalls := 0 }

/-- Witness for C9: the dealer starting at 15 draws to a value above 16
without error. -/
theorem dealers_turn_stands_over_16_witness :
    (dealers_turn gDealerLow).2 = none ∧
      16 < (dealers_turn gDealerLow).1.dealer.cardvalue := by
  have h := dealers_turn_stands_over_16 gDealerLow rfl
  exact ⟨h.1, h.2.1⟩

/-- Sorting the result lists permutes them. -/
theorem sort_list_perm (l : List Participant) : (_sort_list l).Perm l :=
  List.mergeSort_perm l _

/-- Membership is invariant under the result sort. -/
theorem mem_sort_list {p : Participant} {l : List Participant} :
    p ∈ _sort_list l ↔ p ∈ l :=
  (sort_list_perm l).mem_iff

/-- The derived busted flag is the negation of the value-at-most-21 test. -/
theorem busted_eq_not_le (p : Participant) :
    p.busted = !decide (p.cardvalue ≤ 21) := by
  by_cases h : p.cardvalue ≤ 21
  · simp [Participant.busted, h, Nat.not_lt.mpr h]
  · simp [Participant.busted, h, Nat.lt_of_not_le h]

/-- A participant with a false busted flag holds at most 21. -/
theorem not_busted_le (p : Participant) (h : p.busted = false) : p.cardvalue ≤ 21 := by
  simp [Participant.busted] at h
  omega

/-- The not-busted filter followed by the busted filter permutes the roster. -/
theorem players_split_perm (g : Game) :
    (g.players.filter (fun p => decide (p.cardvalue ≤ 21)) ++
      g.players.filter (fun p => p.busted)).Perm g.players := by
  have h := List.filter_append_perm (fun p => decide (p.cardvalue ≤ 21)) g.players
  have he : g.players.filter (fun a => !decide (a.cardvalue ≤ 21)) =
      g.players.filter (fun p => p.busted) :=
    List.filter_congr (fun a _ => (busted_eq_not_le a).symm)
  rwa [he] at h

/-- Three mutually exclusive, jointly exhaustive filters permute the list. -/
theorem filter_trichotomy_perm {α : Type} (l : List α) (p q r : α → Bool)
    (h : ∀ a ∈ l, (p a = true ∧ q a = false ∧ r a = false) ∨
      (p a = false ∧ q a = true ∧ r a = false) ∨
      (p a = false ∧ q a = false ∧ r a = true)) :
    (l.filter p ++ l.filter q ++ l.filter r).Perm l := by
  induction l with
  | nil => simp
  | cons x t ih =>
    have hx := h x (List.mem_cons_self x t)
    have ht := fun a ha => h a (List.mem_cons_of_mem x ha)
    rcases hx with ⟨h1, h2, h3⟩ | ⟨h1, h2, h3⟩ | ⟨h1, h2, h3⟩
    · simp only [List.filter_cons, h1, h2, h3, if_true, Bool.false_eq_true, if_false,
        List.cons_append]
      exact (ih ht).cons x
    · simp only [List.filter_cons, h1, h2, h3, if_true, Bool.false_eq_true, if_false]
      have hmid : (t.filter p ++ x :: t.filter q).Perm (x :: (t.filter p ++ t.filter q)) :=
        List.perm_middle
      exact ((hmid.append (List.Perm.refl (t.filter r))).trans ((ih ht).cons x))
    · simp only [List.filter_cons, h1, h2, h3, if_true, Bool.false_eq_true, if_false]
      exact List.perm_middle.trans ((ih ht).cons x)

/-- The dealer-busted branch of evaluation, written out. -/
theorem evaluation_eq_dealer_busted (g : Game) (hb : g.dealer.busted = true) :
    evaluation g =
      { won := _sort_list (g.players.filter (fun p => decide (p.cardvalue ≤ 21))),
        tie := [],
        lost := _sort_list (g.players.filter (fun p => p.busted)),
        payments := (g.players.filter (fun p => decide (p.cardvalue ≤ 21))).map
          (fun p => (p.user_id, if p.has_blackjack then (5 / 2 : ℚ) else 2)) } := by
  simp [evaluation, hb, _sort_list]

/-- The dealer-blackjack branch of evaluation, written out. -/
theorem evaluation_eq_dealer_blackjack (g : Game) (hb : g.dealer.busted = false)
    (hbj : g.dealer.has_blackjack = true) :
    evaluation g =
      { won := [],
        tie := _sort_list ((g.players.filter (fun p => decide (p.cardvalue ≤ 21))).filter
          (fun p => p.has_blackjack)),
        lost := _sort_list ((g.players.filter (fun p => decide (p.cardvalue ≤ 21))).filter
          (fun p => !p.has_blackjack) ++ g.players.filter (fun p => p.busted)),
        payments := ((g.players.filter (fun p => decide (p.cardvalue ≤ 21))).filter
          (fun p => p.has_blackjack)).map (fun p => (p.user_id, (1 : ℚ))) } := by
  simp [evaluation, hb, hbj, _sort_list]

/-- The value-comparison branch of evaluation, written out. -/
theorem evaluation_eq_dealer_normal (g : Game) (hb : g.dealer.busted = false)
    (hbj : g.dealer.has_blackjack = false) (hle : g.dealer.cardvalue ≤ 21) :
    evaluation g =
      { won := _sort_list ((g.players.filter (fun p => decide (p.cardvalue ≤ 21))).filter
          (fun p => decide (g.dealer.cardvalue < p.cardvalue))),
        tie := _sort_list ((g.players.filter (fun p => decide (p.cardvalue ≤ 21))).filter
          (fun p => decide (p.cardvalue = g.dealer.cardvalue))),
        lost := _sort_list ((g.players.filter (fun p => decide (p.cardvalue ≤ 21))).filter
          (fun p => decide (p.cardvalue < g.dealer.cardvalue)) ++
          g.players.filter (fun p => p.busted)),
        payments := (g.players.filter (fun p => decide (p.cardvalue ≤ 21))).filterMap
          (fun p =>
            if g.dealer.cardvalue < p.cardvalue then some (p.user_id, (2 : ℚ))
            else if p.cardvalue = g.dealer.cardvalue then some (p.user_id, (1 : ℚ))
            else none) } := by
  simp [evaluation, hb, hbj, hle, _sort_list]

/-- C1: for every game state, evaluation returns three lists whose
concatenation is a permutation of the full roster and which are pairwise
disjoint. -/
theorem evaluation_partitions (g : Game) :
    ((evaluation g).won ++ (evaluation g).tie ++ (evaluation g).lost).Perm g.players ∧
    (evaluation g).won.Disjoint (evaluation g).tie ∧
    (evaluation g).won.Disjoint (evaluation g).lost ∧
    (evaluation g).tie.Disjoint (evaluation g).lost := by
  by_cases hb : g.dealer.busted = true
  · rw [evaluation_eq_dealer_busted g hb]
    refine ⟨?_, ?_, ?_, ?_⟩
    · simp only [List.append_nil]
      exact ((sort_list_perm _).append (sort_list_perm _)).trans (players_split_perm g)
    · intro a h1 h2
      simp at h2
    · intro a h1 h2
      rw [mem_sort_list] at h1 h2
      have hv := (List.mem_filter.mp h1).2
      have hbu := (List.mem_filter.mp h2).2
      rw [busted_eq_not_le] at hbu
      simp only [decide_eq_true_eq] at hv
      simp at hbu
      omega
    · intro a h1 h2
      simp at h1
  · have hb' : g.dealer.busted = false := by simpa using hb
    have hdle := not_busted_le _ hb'
    by_cases hbj : g.dealer.has_blackjack = true
    · rw [evaluation_eq_dealer_blackjack g hb' hbj]
      refine ⟨?_, ?_, ?_, ?_⟩
      · simp only [List.nil_append]
        refine ((sort_list_perm _).append (sort_list_perm _)).trans ?_
        rw [← List.append_assoc]
        exact ((List.filter_append_perm (fun p => p.has_blackjack) _).append
          (List.Perm.refl _)).trans (players_split_perm g)
      · intro a h1 h2
        simp at h1
      · intro a h1 h2
        simp at h1
      · intro a h1 h2
        rw [mem_sort_list] at h1 h2
        have hbj1 := (List.mem_filter.mp h1).2
        have h1nb := (List.mem_filter.mp h1).1
        have hvle := (List.mem_filter.mp h1nb).2
        simp only [decide_eq_true_eq] at hvle
        rcases List.mem_append.mp h2 with h2' | h2'
        · have hflag := (List.mem_filter.mp h2').2
          simp [hbj1] at hflag
        · have hflag := (List.mem_filter.mp h2').2
          rw [busted_eq_not_le] at hflag
          simp at hflag
          omega
    · have hbj' : g.dealer.has_blackjack = false := by simpa using hbj
      rw [evaluation_eq_dealer_normal g hb' hbj' hdle]
      refine ⟨?_, ?_, ?_, ?_⟩
      · refine (((sort_list_perm _).append (sort_list_perm _)).append
          (sort_list_perm _)).trans ?_
        rw [← List.append_assoc]
        refine (List.Perm.append ?_ (List.Perm.refl _)).trans (players_split_perm g)
        refine filter_trichotomy_perm _ _ _ _ ?_
        intro a _
        rcases Nat.lt_trichotomy g.dealer.cardvalue a.cardvalue with h | h | h
        · left
          refine ⟨by simp [h], by simp; omega, by simp; omega⟩
        · right
          left
          refine ⟨by simp; omega, by simp [h], by simp; omega⟩
        · right
          right
          refine ⟨by simp; omega, by simp; omega, by simp [h]⟩
      · intro a h1 h2
        rw [mem_sort_list] at h1 h2
        have hgt := (List.mem_filter.mp h1).2
        have heq := (List.mem_filter.mp h2).2
        simp only [decide_eq_true_eq] at hgt heq
        omega
      · intro a h1 h2
        rw [mem_sort_list] at h1 h2
        have hgt := (List.mem_filter.mp h1).2
        have h1nb := (List.mem_filter.mp h1).1
        have hvle := (List.mem_filter.mp h1nb).2
        simp only [decide_eq_true_eq] at hgt hvle
        rcases List.mem_append.mp h2 with h2' | h2'
        · have hlt := (List.mem_filter.mp h2').2
          simp only [decide_eq_true_eq] at hlt
          omega
        · have hflag := (List.mem_filter.mp h2').2
          rw [busted_eq_not_le] at hflag
          simp at hflag
          omega
      · intro a h1 h2
        rw [mem_sort_list] at h1 h2
        have heq := (List.mem_filter.mp h1).2
        have h1nb := (List.mem_filter.mp h1).1
        have hvle := (List.mem_filter.mp h1nb).2
        simp only [decide_eq_true_eq] at heq hvle
        rcases List.mem_append.mp h2 with h2' | h2'
        · have hlt := (List.mem_filter.mp h2').2
          simp only [decide_eq_true_eq] at hlt
          omega
        · have hflag := (List.mem_filter.mp h2').2
          rw [busted_eq_not_le] at hflag
          simp at hflag
          omega

/-- C3: when the dealer is busted, every not-busted player lands in the won
list (and in neither other list) and is paid factor 2.5 with a natural
blackjack, factor 2 otherwise. -/
theorem evaluation_dealer_busted_pays (g : Game) (hb : g.dealer.busted = true) :
    ∀ p ∈ g.players, p.cardvalue ≤ 21 →
      p ∈ (evaluation g).won ∧ p ∉ (evaluation g).tie ∧ p ∉ (evaluation g).lost ∧
      (p.user_id, if p.has_blackjack then (5 / 2 : ℚ) else 2) ∈ (evaluation g).payments := by
  intro p hp hple
  rw [evaluation_eq_dealer_busted g hb]
  refine ⟨?_, ?_, ?_, ?_⟩
  · rw [mem_sort_list]
    exact List.mem_filter.mpr ⟨hp, by simp [hple]⟩
  · simp
  · simp only [mem_sort_list]
    intro hmem
    have hbu := (List.mem_filter.mp hmem).2
    rw [busted_eq_not_le] at hbu
    simp at hbu
    omega
  · exact List.mem_map.mpr ⟨p, List.mem_filter.mpr ⟨hp, by simp [hple]⟩, rfl⟩

/-- Concrete game with a busted dealer (22), one 19-point player and one
natural-blackjack player. -/
def gBusted : Game :=
  { current_player := -1,
    players := [{ user_id := 1, first_name := "a", join_id := 0, cards := [10, 9] },
                { user_id := 2, first_name := "b", join_id := 0, cards := [11, 10] }],
    running := true, deck := deckTwos,
    dealer := { user_id := 0, first_name := "Dealer", join_id := 0, cards := [10, 10, 2] },
    startHandlersRuns := 0, stopHandlersRuns := 0, dealersTurnCalls := 0 }

/-- Witness for C3: against the busted dealer, the 19-point player wins with
payment factor 2 and the natural-blackjack player wins with factor 2.5. -/
theorem evaluation_dealer_busted_pays_witness :
    { user_id := 1, first_name := "a", join_id := 0, cards := [10, 9] } ∈
        (evaluation gBusted).won ∧
      ((1 : Int), (2 : ℚ)) ∈ (evaluation gBusted).payments ∧
      ((2 : Int), (5 / 2 : ℚ)) ∈ (evaluation gBusted).payments := by
  have h1 := evaluation_dealer_busted_pays gBusted rfl
    { user_id := 1, first_name := "a", join_id := 0, cards := [10, 9] }
    (by simp [gBusted]) (by decide)
  have h2 := evaluation_dealer_busted_pays gBusted rfl
    { user_id := 2, first_name := "b", join_id := 0, cards := [11, 10] }
    (by simp [gBusted]) (by decide)
  refine ⟨h1.1, ?_, ?_⟩
  · have h4 := h1.2.2.2
    simpa using h4
  · have h4 := h2.2.2.2
    simpa using h4

/-- C4: when the dealer is neither busted nor holds a natural blackjack and
its value is at most 21, each not-busted player is classified by value
comparison: above the dealer it wins and is paid factor 2; equal it ties and
is paid factor 1; below it loses and (with pairwise distinct user ids)
receives no payment. -/
theorem evaluation_dealer_normal_cmp (g : Game) (hb : g.dealer.busted = false)
    (hbj : g.dealer.has_blackjack = false) (hle : g.dealer.cardvalue ≤ 21) :
    ∀ p ∈ g.players, p.cardvalue ≤ 21 →
      (g.dealer.cardvalue < p.cardvalue →
        p ∈ (evaluation g).won ∧ p ∉ (evaluation g).tie ∧ p ∉ (evaluation g).lost ∧
        (p.user_id, (2 : ℚ)) ∈ (evaluation g).payments) ∧
      (p.cardvalue = g.dealer.cardvalue →
        p ∈ (evaluation g).tie ∧ p ∉ (evaluation g).won ∧ p ∉ (evaluation g).lost ∧
        (p.user_id, (1 : ℚ)) ∈ (evaluation g).payments) ∧
      (p.cardvalue < g.dealer.cardvalue →
        p ∈ (evaluation g).lost ∧ p ∉ (evaluation g).won ∧ p ∉ (evaluation g).tie ∧
        ((g.players.map Participant.user_id).Nodup →
          ∀ f : ℚ, (p.user_id, f) ∉ (evaluation g).payments)) := by
  intro p hp hple
  rw [evaluation_eq_dealer_normal g hb hbj hle]
  have hpnb : p ∈ g.players.filter (fun q => decide (q.cardvalue ≤ 21)) :=
    List.mem_filter.mpr ⟨hp, by simp [hple]⟩
  refine ⟨?_, ?_, ?_⟩
  · intro hgt
    refine ⟨?_, ?_, ?_, ?_⟩
    · rw [mem_sort_list]
      exact List.mem_filter.mpr ⟨hpnb, by simp [hgt]⟩
    · simp only [mem_sort_list]
      intro hmem
      have heq := (List.mem_filter.mp hmem).2
      simp only [decide_eq_true_eq] at heq
      omega
    · simp only [mem_sort_list]
      intro hmem
      rcases List.mem_append.mp hmem with h2 | h2
      · have hlt := (List.mem_filter.mp h2).2
        simp only [decide_eq_true_eq] at hlt
        omega
      · have hflag := (List.mem_filter.mp h2).2
        rw [busted_eq_not_le] at hflag
        simp at hflag
        omega
    · refine List.mem_filterMap.mpr ⟨p, hpnb, ?_⟩
      rw [if_pos hgt]
  · intro heqv
    refine ⟨?_, ?_, ?_, ?_⟩
    · rw [mem_sort_list]
      exact List.mem_filter.mpr ⟨hpnb, by simp [heqv]⟩
    · simp only [mem_sort_list]
      intro hmem
      have hgt := (List.mem_filter.mp hmem).2
      simp only [decide_eq_true_eq] at hgt
      omega
    · simp only [mem_sort_list]
      intro hmem
      rcases List.mem_append.mp hmem with h2 | h2
      · have hlt := (List.mem_filter.mp h2).2
        simp only [decide_eq_true_eq] at hlt
        omega
      · have hflag := (List.mem_filter.mp h2).2
        rw [busted_eq_not_le] at hflag
        simp at hflag
        omega
    · refine List.mem_filterMap.mpr ⟨p, hpnb, ?_⟩
      rw [if_neg (by omega), if_pos heqv]
  · intro hlt
    refine ⟨?_, ?_, ?_, ?_⟩
    · rw [mem_sort_list]
      exact List.mem_append.mpr (Or.inl (List.mem_filter.mpr ⟨hpnb, by simp [hlt]⟩))
    · simp only [mem_sort_list]
      intro hmem
      have hgt := (List.mem_filter.mp hmem).2
      simp only [decide_eq_true_eq] at hgt
      omega
    · simp only [mem_sort_list]
      intro hmem
      have heq := (List.mem_filter.mp hmem).2
      simp only [decide_eq_true_eq] at heq
      omega
    · intro hnd f hmem
      rcases List.mem_filterMap.mp hmem with ⟨q, hqnb, hfq⟩
      have hq : q ∈ g.players := (List.mem_filter.mp hqnb).1
      by_cases hq1 : g.dealer.cardvalue < q.cardvalue
      · rw [if_pos hq1] at hfq
        have huid : q.user_id = p.user_id := congrArg Prod.fst (Option.some.inj hfq)
        have hqp := List.inj_on_of_nodup_map hnd hq hp huid
        rw [hqp] at hq1
        omega
      · rw [if_neg hq1] at hfq
        by_cases hq2 : q.cardvalue = g.dealer.cardvalue
        · rw [if_pos hq2] at hfq
          have huid : q.user_id = p.user_id := congrArg Prod.fst (Option.some.inj hfq)
          have hqp := List.inj_on_of_nodup_map hnd hq hp huid
          rw [hqp] at hq2
          omega
        · rw [if_neg hq2] at hfq
          exact Option.noConfusion hfq

/-- Concrete game with a standing dealer at 18 and players at 20, 18 and a
bust. -/
def gShowdown : Game :=
  { current_player := -1,
    players := [{ user_id := 1, first_name := "a", join_id := 0, cards := [10, 10] },
                { user_id := 2, first_name := "b", join_id := 0, cards := [10, 8] },
                { user_id := 3, first_name := "c", join_id := 0, cards := [10, 9, 8] }],
    running := true, deck := deckTwos,
    dealer := { user_id := 0, first_name := "Dealer", join_id := 0, cards := [10, 8] },
    startHandlersRuns := 0, stopHandlersRuns := 0, dealersTurnCalls := 0 }

/-- Witness for C4: against the dealer's 18, the 20-point player wins with
factor 2 and the 18-point player ties with factor 1 and no payment reaches
the losers. -/
theorem evaluation_dealer_normal_cmp_witness :
    { user_id := 1, first_name := "a", join_id := 0, cards := [10, 10] } ∈
        (evaluation gShowdown).won ∧
      ((1 : Int), (2 : ℚ)) ∈ (evaluation gShowdown).payments ∧
      { user_id := 2, first_name := "b", join_id := 0, cards := [10, 8] } ∈
        (evaluation gShowdown).tie ∧
      ((2 : Int), (1 : ℚ)) ∈ (evaluation gShowdown).payments := by
  have h1 := evaluation_dealer_normal_cmp gShowdown rfl rfl (by decide)
    { user_id := 1, first_name := "a", join_id := 0, cards := [10, 10] }
    (by simp [gShowdown]) (by decide)
  have h2 := evaluation_dealer_normal_cmp gShowdown rfl rfl (by decide)
    { user_id := 2, first_name := "b", join_id := 0, cards := [10, 8] }
    (by simp [gShowdown]) (by decide)
  have hw := h1.1 (by decide)
  have ht := h2.2.1 (by decide)
  exact ⟨hw.1, hw.2.2.2, ht.1, ht.2.2.2⟩

/-- modifyAt preserves the length. -/
theorem modifyAt_length {α : Type} (f : α → α) :
    ∀ (n : ℕ) (l : List α), (modifyAt f n l).length = l.length := by
  intro n l
  induction l generalizing n with
  | nil => cases n <;> simp [modifyAt]
  | cons a t ih => cases n <;> simp [modifyAt, ih]

/-- Pointwise description of modifyAt. -/
theorem modifyAt_getElem? {α : Type} (f : α → α) :
    ∀ (n : ℕ) (l : List α) (j : ℕ),
      (modifyAt f n l)[j]? = if n = j then (l[j]?).map f else l[j]? := by
  intro n l
  induction l generalizing n with
  | nil => intro j; cases n <;> simp [modifyAt]
  | cons a t ih =>
    intro j
    cases n with
    | zero =>
      cases j with
      | zero => simp [modifyAt]
      | succ j => simp [modifyAt]
    | succ n =>
      cases j with
      | zero => simp [modifyAt]
      | succ j => simpa [modifyAt] using ih n j

/-- The cards, in draw order, that the dealing loop hands to roster-plus-
dealer position j when it walks the position list is starting at deck cursor
idx. -/
def cardsFor (stream : ℕ → ℕ) : ℕ → List ℕ → ℕ → List ℕ
  | _, [], _ => []
  | idx, i :: rest, j =>
    if i = j then stream idx :: cardsFor stream (idx + 1) rest j
    else cardsFor stream (idx + 1) rest j

/-- cardsFor splits over concatenated position lists. -/
theorem cardsFor_append (stream : ℕ → ℕ) (is1 is2 : List ℕ) :
    ∀ (idx j : ℕ),
      cardsFor stream idx (is1 ++ is2) j =
        cardsFor stream idx is1 j ++ cardsFor stream (idx + is1.length) is2 j := by
  induction is1 with
  | nil => intro idx j; simp [cardsFor]
  | cons i rest ih =>
    intro idx j
    have harith : idx + 1 + rest.length = idx + (rest.length + 1) := by omega
    by_cases h : i = j <;>
      simp [cardsFor, h, ih (idx + 1) j, harith]

/-- Over a contiguous position range, position j receives exactly one card,
the one drawn when the walk passes j. -/
theorem cardsFor_range' (stream : ℕ → ℕ) :
    ∀ (cnt s idx j : ℕ),
      cardsFor stream idx (List.range' s cnt) j =
        if s ≤ j ∧ j < s + cnt then [stream (idx + (j - s))] else [] := by
  intro cnt
  induction cnt with
  | zero =>
    intro s idx j
    rw [if_neg (by omega)]
    simp [cardsFor]
  | succ cnt ih =>
    intro s idx j
    rw [List.range'_succ]
    simp only [cardsFor]
    by_cases h : s = j
    · rw [if_pos h, ih (s + 1) (idx + 1) j, if_neg (by omega), if_pos (by omega)]
      have : j - s = 0 := by omega
      simp [this]
    · rw [if_neg h, ih (s + 1) (idx + 1) j]
      by_cases h2 : s + 1 ≤ j ∧ j < s + 1 + cnt
      · rw [if_pos h2, if_pos (by omega)]
        have : idx + 1 + (j - (s + 1)) = idx + (j - s) := by omega
        rw [this]
      · rw [if_neg h2, if_neg (by omega)]

/-- One dealing step advances the deck cursor and keeps its stream, the
roster length and the running flag. -/
theorem give_card_at_frame (g : Game) (i : ℕ) :
    (give_card_at g i).players.length = g.players.length ∧
    (give_card_at g i).deck.cards = g.deck.cards ∧
    (give_card_at g i).deck.idx = g.deck.idx + 1 ∧
    (give_card_at g i).running = g.running := by
  by_cases hi : i = g.players.length <;> simp [give_card_at, hi, modifyAt_length]

/-- Frame of the whole dealing fold: the stream is unchanged, the cursor
advances once per position visited, roster length and running flag are
kept. -/
theorem foldl_give_frame (is : List ℕ) :
    ∀ g : Game,
      (is.foldl give_card_at g).players.length = g.players.length ∧
      (is.foldl give_card_at g).deck.cards = g.deck.cards ∧
      (is.foldl give_card_at g).deck.idx = g.deck.idx + is.length ∧
      (is.foldl give_card_at g).running = g.running := by
  induction is with
  | nil => intro g; simp
  | cons i rest ih =>
    intro g
    have h1 := give_card_at_frame g i
    have h2 := ih (give_card_at g i)
    simp only [List.foldl_cons]
    refine ⟨h2.1.trans h1.1, h2.2.1.trans h1.2.1, ?_, h2.2.2.2.trans h1.2.2.2⟩
    rw [h2.2.2.1, h1.2.2.1, List.length_cons]
    omega

/-- Pointwise effect of the dealing fold on the roster: player j ends with
exactly the cards that the walk hands to position j, in draw order. -/
theorem foldl_give_players (is : List ℕ) :
    ∀ (g : Game) (j : ℕ),
      (is.foldl give_card_at g).players[j]? =
        (g.players[j]?).map
          (fun p => { p with cards := p.cards ++ cardsFor g.deck.cards g.deck.idx is j }) := by
  induction is with
  | nil =>
    intro g j
    rcases h : g.players[j]? with _ | p <;> simp [cardsFor, h]
  | cons i rest ih =>
    intro g j
    simp only [List.foldl_cons]
    rw [ih (give_card_at g i) j]
    have hcards := (give_card_at_frame g i).2.1
    have hidx := (give_card_at_frame g i).2.2.1
    rw [hcards, hidx]
    by_cases hi : i = g.players.length
    · have hpl : (give_card_at g i).players = g.players := by
        simp [give_card_at, hi]
      rw [hpl]
      by_cases hj : j < g.players.length
      · have hne : i ≠ j := by omega
        simp only [cardsFor, hne, if_false]
      · rw [List.getElem?_eq_none (by omega)]
        simp
    · have hpl : (give_card_at g i).players =
          modifyAt (fun p => p.give_card (g.deck.cards g.deck.idx)) i g.players := by
        simp [give_card_at, hi]
      rw [hpl, modifyAt_getElem?]
      by_cases hij : i = j
      · rw [if_pos hij]
        rcases h : g.players[j]? with _ | p
        · simp
        · simp only [Option.map_some, Option.some.injEq, cardsFor, hij, if_pos rfl]
          simp [Participant.give_card]
      · rw [if_neg hij]
        simp only [cardsFor, hij, if_false]

/-- Effect of the dealing fold on the dealer: it ends with exactly the cards
handed to the dealer position (the roster length). -/
theorem foldl_give_dealer (is : List ℕ) :
    ∀ g : Game,
      (is.foldl give_card_at g).dealer =
        { g.dealer with
            cards := g.dealer.cards ++ cardsFor g.deck.cards g.deck.idx is g.players.length } := by
  induction is with
  | nil => intro g; simp [cardsFor]
  | cons i rest ih =>
    intro g
    simp only [List.foldl_cons]
    rw [ih (give_card_at g i)]
    have hcards := (give_card_at_frame g i).2.1
    have hidx := (give_card_at_frame g i).2.2.1
    have hlen := (give_card_at_frame g i).1
    rw [hcards, hidx, hlen]
    by_cases hi : i = g.players.length
    · have hdl : (give_card_at g i).dealer = g.dealer.give_card (g.deck.cards g.deck.idx) := by
        simp [give_card_at, hi]
      rw [hdl]
      simp only [cardsFor, hi, if_pos rfl]
      simp [Participant.give_card]
    · have hdl : (give_card_at g i).dealer = g.dealer := by
        simp [give_card_at, hi]
      rw [hdl]
      simp only [cardsFor, hi, if_false]

/-- C2: on a non-running, non-empty game, start succeeds and deals in
round-robin order: writing stream for the deck and idx for its cursor, the
k-th card drawn is stream (idx + k), and player j receives exactly draws
k = j and k = j + (roster+1) while the dealer (position roster) receives
draws k = roster and k = 2*roster + 1 — that is, draw k goes to
roster-plus-dealer position k mod (roster+1), one card to each entity per
pass, two passes, and every entity ends with exactly 2 more cards. -/
theorem start_deals_round_robin (g : Game) (hrun : g.running = false)
    (hne : 1 ≤ g.players.length) :
    (start g).2 = none ∧
    (start g).1.running = true ∧
    (start g).1.players.length = g.players.length ∧
    (∀ (j : ℕ) (p : Participant), g.players[j]? = some p →
      (start g).1.players[j]? =
        some { p with
          cards := p.cards ++ [g.deck.cards (g.deck.idx + j),
            g.deck.cards (g.deck.idx + (g.players.length + 1) + j)] }) ∧
    (start g).1.dealer =
      { g.dealer with
        cards := g.dealer.cards ++ [g.deck.cards (g.deck.idx + g.players.length),
          g.deck.cards (g.deck.idx + (g.players.length + 1) + g.players.length)] } ∧
    (start g).1.deck.idx = g.deck.idx + 2 * (g.players.length + 1) := by
  have hcfor : ∀ j : ℕ, j < g.players.length + 1 →
      cardsFor g.deck.cards g.deck.idx (deal_positions g.players.length) j =
        [g.deck.cards (g.deck.idx + j),
         g.deck.cards (g.deck.idx + (g.players.length + 1) + j)] := by
    intro j hj
    rw [deal_positions, cardsFor_append, List.range_eq_range', cardsFor_range',
      cardsFor_range', if_pos (by omega), if_pos (by omega)]
    simp
  have hres : start g =
      ({ ((deal_positions g.players.length).foldl give_card_at { g with running := true }) with
          startHandlersRuns :=
            ((deal_positions g.players.length).foldl give_card_at
              { g with running := true }).startHandlersRuns + 1 },
        none) := by
    rw [start, if_neg (by simp [hrun]), if_neg (by omega)]
  have hframe := foldl_give_frame (deal_positions g.players.length) { g with running := true }
  refine ⟨?_, ?_, ?_, ?_, ?_, ?_⟩
  · rw [hres]
  · rw [hres]
    show ((deal_positions g.players.length).foldl give_card_at
      { g with running := true }).running = true
    rw [hframe.2.2.2]
  · rw [hres]
    show ((deal_positions g.players.length).foldl give_card_at
      { g with running := true }).players.length = g.players.length
    rw [hframe.1]
  · intro j p hp
    have hj : j < g.players.length := (List.getElem?_eq_some_iff.mp hp).1
    rw [hres]
    show ((deal_positions g.players.length).foldl give_card_at
      { g with running := true }).players[j]? = _
    rw [foldl_give_players]
    show (g.players[j]?).map
      (fun p => { p with
        cards := p.cards ++ cardsFor g.deck.cards g.deck.idx
          (deal_positions g.players.length) j }) = _
    rw [hp, hcfor j (by omega)]
    rfl
  · rw [hres]
    show ((deal_positions g.players.length).foldl give_card_at
      { g with running := true }).dealer = _
    rw [foldl_give_dealer]
    show ({ g.dealer with
      cards := g.dealer.cards ++ cardsFor g.deck.cards g.deck.idx
        (deal_positions g.players.length) g.players.length } : Participant) = _
    rw [hcfor g.players.length (by omega)]
  · rw [hres]
    show ((deal_positions g.players.length).foldl give_card_at
      { g with running := true }).deck.idx = g.deck.idx + 2 * (g.players.length + 1)
    rw [hframe.2.2.1]
    show g.deck.idx + (deal_positions g.players.length).length = _
    rw [deal_positions, List.length_append, List.length_range]
    omega

/-- Concrete deck whose k-th card is k + 2, so the draw order is visible in
the hands. -/
def deckSeq : Deck :=
  { cards := fun k => k + 2, idx := 0, pos := fun k => Nat.le_add_left 1 (k + 1) }

/-- Concrete idle one-player game sitting on the sequential deck. -/
def gDeal : Game :=
  { current_player := 0, players := [pOwner], running := false, deck := deckSeq,
    dealer := dHigh, startHandlersRuns := 0, stopHandlersRuns := 0, dealersTurnCalls := 0 }

/-- Witness for C2: starting the one-player game deals stream cards 2,3,4,5
round-robin: player gets draws 0 and 2 (cards 2 and 4), dealer gets draws 1
and 3 (cards 3 and 5). -/
theorem start_deals_round_robin_witness :
    (start gDeal).2 = none ∧
      (start gDeal).1.players[0]? =
        some { user_id := 1, first_name := "a", join_id := 0, cards := [10, 9, 2, 4] } ∧
      (start gDeal).1.dealer =
        { user_id := 0, first_name := "Dealer", join_id := 0, cards := [10, 8, 3, 5] } := by
  have h := start_deals_round_robin gDeal rfl (by decide)
  have h4 := h.2.2.2.1 0 pOwner rfl
  have h5 := h.2.2.2.2.1
  refine ⟨h.1, ?_, ?_⟩
  · rw [h4]
    rfl
  · rw [h5]
    rfl
